import Mathlib

/-!
Verification of the fizzy-timer web application against its specification.

The development shallowly embeds the relevant TypeScript source files:

* `src/apps/web/src/lib/hooks/useTimer.ts` — the timer state machine
  (`start`, `pause`, `resume`, `stop`, `resync`, the 1-second tick interval
  callback, the `remaining` computation, and restoration of a persisted
  snapshot on mount).
* `src/apps/web/src/lib/db/indexed-db.ts` — the `accountOps` and
  `sessionOps` repositories over IndexedDB tables, modelled as lists.
* `src/apps/web/src/lib/hooks/useSessions.ts` — the date/card grouping
  (`useSessionsByDate`) and its cascade delete.

Wall-clock instants are integers in milliseconds; elapsed values are whole
seconds obtained through `Int.fdiv`, which agrees with JavaScript's
`Math.floor((a - b) / 1000)` on all integer inputs.  JavaScript truthiness
tests on optional numbers (`if (x)`) are embedded by `truthy`, which is
false exactly on `none` (undefined/null) and `some 0`.
-/

/-- JavaScript truthiness of an optional number: `undefined`, `null` and `0`
are falsy, every other integer is truthy. -/
def truthy : Option Int → Bool
  | some v => v != 0
  | none => false

/-- Timer lifecycle states, from `useTimer.ts` (`TimerState`). -/
inductive TimerState
  | idle
  | running
  | paused
  | completed
  deriving DecidableEq, Repr

/-- Timer modes, from `useTimer.ts` (`TimerMode`). -/
inductive TimerMode
  | countdown
  | stopwatch
  deriving DecidableEq, Repr

/-- Payload attached to a timer run, from `useTimer.ts` (`TimerData`).
The `card` and `board` objects are abstracted to their identifiers; the
fields the timer logic reads (`previousElapsed`) are kept exactly. -/
structure TimerData where
  cardId : String
  boardId : String
  notes : Option String
  previousElapsed : Option Int
  deriving DecidableEq, Repr

namespace Timer

/-- The mutable state of the `useTimer` hook: React state
(`state`, `mode`, `currentSessionElapsed`, `data`) together with the refs
(`startTimeRef`, `previousElapsedRef`, `durationRef`). -/
structure State where
  state : TimerState
  mode : TimerMode
  currentSessionElapsed : Int
  startTime : Option Int
  previousElapsed : Int
  duration : Option Int
  data : Option TimerData
  deriving DecidableEq, Repr

/-- Initial hook state: `idle`, stopwatch, zero elapsed, no refs set. -/
def initialTimer : State :=
  { state := .idle
    mode := .stopwatch
    currentSessionElapsed := 0
    startTime := none
    previousElapsed := 0
    duration := none
    data := none }

/-- Operation `start(timerData, durationSeconds?)` from `useTimer.ts`:
seeds `previousElapsedRef` from `timerData.previousElapsed || 0`, picks the
mode by JavaScript truthiness of `durationSeconds`, stores the duration,
moves to `running`, resets the session counter to 0 and records the
wall-clock start instant.  There is no guard on the current state. -/
def start (timerData : TimerData) (durationSeconds : Option Int) (now : Int)
    (t : State) : State :=
  { t with
    previousElapsed := timerData.previousElapsed.getD 0
    mode := if truthy durationSeconds then .countdown else .stopwatch
    duration := durationSeconds
    state := .running
    data := some timerData
    currentSessionElapsed := 0
    startTime := some now }

/-- The 1-second interval callback from `useTimer.ts` (the effect on
`[state, mode]`): only acts when the interval is installed (`running`) and
`startTimeRef.current` is truthy; recomputes the elapsed seconds and, in
countdown mode with a truthy duration, clamps at the target and completes. -/
def tick (now : Int) (t : State) : State :=
  if t.state = .running then
    if truthy t.startTime then
      let newElapsed := Int.fdiv (now - t.startTime.getD 0) 1000
      if t.mode = .countdown ∧ truthy t.duration then
        if newElapsed ≥ t.duration.getD 0 then
          { t with
            currentSessionElapsed := t.duration.getD 0
            state := .completed
            startTime := none }
        else { t with currentSessionElapsed := newElapsed }
      else { t with currentSessionElapsed := newElapsed }
    else t
  else t

/-- Operation `pause()` from `useTimer.ts`: only acts from `running`; clears the start
ref and keeps the last computed elapsed value frozen. -/
def pause (t : State) : State :=
  if t.state = .running then
    { t with state := .paused, startTime := none }
  else t

/-- Operation `resume()` from `useTimer.ts`: only acts from `paused`; re-derives a
synthetic start instant `now - currentSessionElapsed * 1000` so the elapsed
computation continues from the frozen value. -/
def resume (now : Int) (t : State) : State :=
  if t.state = .paused then
    { t with
      state := .running
      startTime := some (now - t.currentSessionElapsed * 1000) }
  else t

/-- Operation `stop()` from `useTimer.ts`: unconditionally moves to `completed` and
clears the start ref; the elapsed value is frozen.  There is no guard on the
current state. -/
def stop (t : State) : State :=
  { t with state := .completed, startTime := none }

/-- Operation `reset()` from `useTimer.ts`: returns every field to its initial value. -/
def reset (_t : State) : State := initialTimer

/-- Operation `resync()` from `useTimer.ts`: same recomputation as the tick, used when
returning from the background; only acts when `running` with a truthy start
ref. -/
def resync (now : Int) (t : State) : State :=
  if t.state = .running ∧ truthy t.startTime then
    let newElapsed := Int.fdiv (now - t.startTime.getD 0) 1000
    if t.mode = .countdown ∧ truthy t.duration then
      if newElapsed ≥ t.duration.getD 0 then
        { t with
          currentSessionElapsed := t.duration.getD 0
          state := .completed
          startTime := none }
      else { t with currentSessionElapsed := newElapsed }
    else { t with currentSessionElapsed := newElapsed }
  else t

/-- Operation `setMode(newMode)` from `useTimer.ts`: only acts from `idle`. -/
def setMode (newMode : TimerMode) (t : State) : State :=
  if t.state = .idle then { t with mode := newMode } else t

/-- The `remaining` memo from `useTimer.ts`: `max(0, duration - elapsed)` in
countdown mode with a truthy duration, `0` otherwise. -/
def remaining (t : State) : Int :=
  if t.mode = .countdown ∧ truthy t.duration then
    max 0 (t.duration.getD 0 - t.currentSessionElapsed)
  else 0

/-- The `totalElapsed` value returned as `elapsed` from `useTimer.ts`. -/
def totalElapsed (t : State) : Int :=
  t.currentSessionElapsed + t.previousElapsed

/-- The object persisted to `localStorage` by `saveTimerState` in
`useTimer.ts`: the state tag, data, start instant, frozen elapsed,
accumulated previous elapsed, mode and optional countdown duration. -/
structure Snapshot where
  state : TimerState
  data : Option TimerData
  startTime : Option Int
  elapsed : Int
  previousElapsed : Int
  mode : TimerMode
  duration : Option Int
  deriving DecidableEq, Repr

/-- The record returned by `getSavedTimerState` in `useTimer.ts`. -/
structure SavedTimerState where
  data : Option TimerData
  startTime : Option Int
  elapsed : Int
  previousElapsed : Int
  mode : TimerMode
  duration : Option Int
  deriving DecidableEq, Repr

/-- Function `getSavedTimerState` from `useTimer.ts`, as a function of the stored
snapshot (`none` models an absent or unparsable `localStorage` entry) and of
the reading instant `now`: when the snapshot has a truthy `startTime` and its
state tag is `"running"`, the elapsed seconds are recomputed as
`Math.floor((now - startTime) / 1000)`; otherwise the stored fields are
returned with a `null` start instant. -/
def getSavedTimerState (saved : Option Snapshot) (now : Int) : SavedTimerState :=
  match saved with
  | some parsed =>
    if truthy parsed.startTime ∧ parsed.state = .running then
      { data := parsed.data
        startTime := parsed.startTime
        elapsed := Int.fdiv (now - parsed.startTime.getD 0) 1000
        previousElapsed := parsed.previousElapsed
        mode := parsed.mode
        duration := parsed.duration }
    else
      { data := parsed.data
        startTime := none
        elapsed := parsed.elapsed
        previousElapsed := parsed.previousElapsed
        mode := parsed.mode
        duration := parsed.duration }
  | none =>
    { data := none
      startTime := none
      elapsed := 0
      previousElapsed := 0
      mode := .stopwatch
      duration := none }

/-- The restore-on-mount effect from `useTimer.ts`, as a function of the
persisted snapshot and the restore instant, applied to the initial hook
state: with saved data present it reinstates data, previous elapsed, mode
and duration; with a truthy saved start instant it recomputes the elapsed
seconds and enters `running`, immediately clamping to `completed` when a
truthy countdown duration has already been reached; otherwise it enters
`paused` exactly when the stored elapsed is positive. -/
def restoreOnMount (savedSnapshot : Option Snapshot) (now : Int) : State :=
  let saved := getSavedTimerState savedSnapshot now
  match saved.data with
  | some d =>
    let base : State :=
      { initialTimer with
        data := some d
        previousElapsed := saved.previousElapsed
        mode := saved.mode
        duration := saved.duration }
    if truthy saved.startTime then
      let currentElapsed := Int.fdiv (now - saved.startTime.getD 0) 1000
      let t1 : State :=
        { base with
          state := .running
          startTime := saved.startTime
          currentSessionElapsed := currentElapsed }
      if saved.mode = .countdown ∧ truthy saved.duration then
        if saved.duration.getD 0 - currentElapsed ≤ 0 then
          { t1 with
            currentSessionElapsed := saved.duration.getD 0
            state := .completed
            startTime := none }
        else t1
      else t1
    else if saved.elapsed > 0 then
      { base with state := .paused, currentSessionElapsed := saved.elapsed }
    else base
  | none => initialTimer

/-- One pause/resume cycle against the abstract wall clock: from a running
timer, pause, resume at instant `c.1`, and let the interval tick at instant
`c.2` (the last tick of that running stretch, which freezes the elapsed
value the following pause keeps). -/
def cycleStep (t : State) (c : Int × Int) : State :=
  tick c.2 (resume c.1 (pause t))

/-- A finite sequence of pause/resume cycles. -/
def runCycles (t : State) (cs : List (Int × Int)) : State :=
  cs.foldl cycleStep t

/-- Chronology of a cycle list: each resume instant is no earlier than the
previous tick instant, and each tick no earlier than its resume. -/
def chron (last : Int) : List (Int × Int) → Bool
  | [] => true
  | (r, p) :: cs => decide (last ≤ r) && decide (r ≤ p) && chron p cs

/-- The instant of the last tick of a cycle list (or `last` when empty). -/
def lastTick (last : Int) : List (Int × Int) → Int
  | [] => last
  | (_, p) :: cs => lastTick p cs

/-- Sum of the whole-second lengths of the running intervals described by a
cycle list. -/
def sumCycles (cs : List (Int × Int)) : Int :=
  (cs.map (fun c => Int.fdiv (c.2 - c.1) 1000)).sum

end Timer

/-- A stored account row, from `schema.ts` (`StoredAccount`). -/
structure StoredAccount where
  id : String
  token : String
  slug : String
  userId : String
  name : String
  isActive : Bool
  lastUsed : Int
  deriving DecidableEq, Repr

/-- The argument of `accountOps.add`:
`Omit<StoredAccount, "id" | "lastUsed">`. -/
structure NewAccount where
  token : String
  slug : String
  userId : String
  name : String
  isActive : Bool
  deriving DecidableEq, Repr

namespace accountOps

/-- Dexie `Table.put` keyed on `id`: replaces the row with the same primary
key when one exists, otherwise appends the new row. -/
def put (tbl : List StoredAccount) (a : StoredAccount) : List StoredAccount :=
  if tbl.any (fun b => b.id = a.id) then
    tbl.map (fun b => if b.id = a.id then a else b)
  else tbl ++ [a]

/-- Operation `accountOps.add` from `indexed-db.ts`: uses the slug as the id, stamps
`lastUsed` with the current instant and `put`s the row.  The `isActive`
flag comes from the caller unchanged. -/
def add (tbl : List StoredAccount) (account : NewAccount) (now : Int) :
    List StoredAccount :=
  put tbl
    { id := account.slug
      token := account.token
      slug := account.slug
      userId := account.userId
      name := account.name
      isActive := account.isActive
      lastUsed := now }

/-- Operation `accountOps.setActive` from `indexed-db.ts`: inside one transaction,
clear `isActive` on every row, then set it (and bump `lastUsed`) on the row
whose primary key matches, when it exists. -/
def setActive (tbl : List StoredAccount) (accountId : String) (now : Int) :
    List StoredAccount :=
  (tbl.map (fun a => { a with isActive := false })).map
    (fun a =>
      if a.id = accountId then { a with isActive := true, lastUsed := now }
      else a)

/-- Operation `accountOps.remove` from `indexed-db.ts`: deletes the row with the given
primary key; sessions are left untouched. -/
def remove (tbl : List StoredAccount) (accountId : String) :
    List StoredAccount :=
  tbl.filter (fun a => a.id ≠ accountId)

/-- One call against the accounts table. -/
inductive Op
  | add (account : NewAccount) (now : Int)
  | setActive (accountId : String) (now : Int)
  | remove (accountId : String)
  deriving DecidableEq, Repr

/-- Interpretation of one call. -/
def applyOp (tbl : List StoredAccount) : Op → List StoredAccount
  | .add account now => add tbl account now
  | .setActive accountId now => setActive tbl accountId now
  | .remove accountId => remove tbl accountId

/-- Interpretation of a call sequence, left to right. -/
def applyOps (tbl : List StoredAccount) (ops : List Op) : List StoredAccount :=
  ops.foldl applyOp tbl

/-- Value of `getAll().filter(a => a.isActive).length`: the number of stored accounts
whose `isActive` flag is set. -/
def countActive (tbl : List StoredAccount) : Nat :=
  (tbl.filter (fun a => a.isActive)).length

/-- An `add` call that passes `isActive: false` (as the `useAddAccount`
mutation in `queries/useAccounts.ts` does; the setup route's
`handleSelectAccount` instead passes `isActive: true`, so not every
production call satisfies this). -/
def addsInactive : Op → Bool
  | .add account _ => account.isActive = false
  | .setActive _ _ => true
  | .remove _ => true

/-- Well-formedness of the accounts table: primary keys are unique (an
IndexedDB guarantee) and at most one row is active. -/
abbrev wf (tbl : List StoredAccount) : Prop :=
  (tbl.map (fun a => a.id)).Nodup ∧ countActive tbl ≤ 1

end accountOps

/-- A tracking session, from `schema.ts` (`Session`).  `endTime`, `notes`,
`mergedIds` and `sessionCount` are optional; the last two are populated only
by the read-time aggregation view in `useSessions.ts`. -/
structure Session where
  id : String
  accountId : String
  userId : String
  cardId : String
  cardTitle : String
  cardNumber : Int
  boardId : String
  boardName : String
  startTime : Int
  endTime : Option Int
  duration : Int
  notes : Option String
  synced : Bool
  mergedIds : Option (List String)
  sessionCount : Option Nat
  deriving DecidableEq, Repr

/-- Function `getActiveAccountId` from `indexed-db.ts`: the id of the first stored
account whose `isActive` flag is set, or `null`. -/
def getActiveAccountId (accounts : List StoredAccount) : Option String :=
  (accounts.find? (fun a => a.isActive)).map (fun a => a.id)

namespace sessionOps

/-- Operation `sessionOps.getAll(accountId?)` from `indexed-db.ts`: resolve the target
account (the argument when given, via `??`, else the active account), return
`[]` when the target is falsy (null or the empty string), else filter the
sessions table by `accountId` and sort by descending `startTime`
(`(a, b) => b.startTime - a.startTime`). -/
def getAll (sessions : List Session) (accounts : List StoredAccount)
    (accountId : Option String) : List Session :=
  let targetAccountId :=
    match accountId with
    | some a => some a
    | none => getActiveAccountId accounts
  match targetAccountId with
  | none => []
  | some target =>
    if target = "" then []
    else
      (sessions.filter (fun s => s.accountId = target)).mergeSort
        (fun a b => b.startTime ≤ a.startTime)

end sessionOps

/-- Generic embedding of the grouping pattern used twice in
`useSessionsByDate` (`useSessions.ts`): fold over the input, and for each
element either update the entry already stored under its key (JavaScript
`Map`/object access, which preserves insertion order) or append a fresh
entry. -/
def updEntry {α K E : Type} [DecidableEq K] (key : α → K) (init : α → E)
    (upd : E → α → E) (acc : List (K × E)) (s : α) : List (K × E) :=
  if acc.any (fun kv => kv.1 = key s) then
    acc.map (fun kv => if kv.1 = key s then (kv.1, upd kv.2 s) else kv)
  else acc ++ [(key s, init s)]

/-- Fold a list into key-grouped entries, preserving first-occurrence order
of keys, as JavaScript `Map` and plain-object accumulation both do. -/
def assocGroup {α K E : Type} [DecidableEq K] (key : α → K) (init : α → E)
    (upd : E → α → E) (l : List α) : List (K × E) :=
  l.foldl (updEntry key init upd) []

/-- Lookup of a key in the grouped entries. -/
def alookup {K E : Type} [DecidableEq K] (acc : List (K × E)) (k : K) :
    Option E :=
  (acc.find? (fun kv => kv.1 = k)).map (fun kv => kv.2)

/-- The accumulation step of a grouped fold, as seen per key: initialize on
the first element carrying the key, update on every further one. -/
def stepOf {α E : Type} (init : α → E) (upd : E → α → E) :
    Option E → α → Option E :=
  fun o s =>
    some (match o with
      | none => init s
      | some e => upd e s)

namespace useSessionsByDate

/-- The calendar-date key of a session.  The source computes
`new Date(session.startTime).toLocaleDateString('en-US', ...)`; the
embedding identifies a calendar date with its day index, two instants
sharing a key exactly when they fall on the same day. -/
def dateKey (startTime : Int) : Int :=
  Int.fdiv startTime 86400000

/-- The card grouping key from `useSessionsByDate`:
`` `${session.cardId}-${session.boardId}` ``, a plain string concatenation. -/
def cardKey (s : Session) : String :=
  s.cardId ++ "-" ++ s.boardId

/-- The first grouping pass of `useSessionsByDate`: sessions bucketed by
calendar date, each bucket in input order. -/
def byDate (sessions : List Session) : List (Int × List Session) :=
  assocGroup (fun s => dateKey s.startTime) (fun s => [s]) (fun g s => g ++ [s])
    sessions

/-- A `cardMap` entry in `useSessionsByDate`: the merged session being
accumulated, the running count and the ids collected so far. -/
structure MergeEntry where
  session : Session
  count : Nat
  ids : List String
  deriving DecidableEq, Repr

/-- The in-place merge of one more session into an existing `cardMap`
entry's session: durations add, `startTime` takes the minimum, and
`endTime` takes `Math.max(existing.endTime || 0, session.endTime)` only
when the incoming `endTime` is truthy. -/
def mergeInto (existing s : Session) : Session :=
  { existing with
    duration := existing.duration + s.duration
    startTime := min existing.startTime s.startTime
    endTime :=
      if truthy s.endTime then
        some (max (existing.endTime.getD 0) (s.endTime.getD 0))
      else existing.endTime }

/-- A fresh `cardMap` entry: a copy of the session, count 1, its id. -/
def initEntry (s : Session) : MergeEntry :=
  { session := s, count := 1, ids := [s.id] }

/-- Updating an existing `cardMap` entry with one more session. -/
def updStep (e : MergeEntry) (s : Session) : MergeEntry :=
  { session := mergeInto e.session s, count := e.count + 1, ids := e.ids ++ [s.id] }

/-- The `cardMap` of one date bucket. -/
def cardMap (dateSessions : List Session) : List (String × MergeEntry) :=
  assocGroup cardKey initEntry updStep dateSessions

/-- Projection `Array.from(cardMap.values()).map(...)` from `useSessionsByDate`: each
entry becomes a view record carrying `sessionCount`, and `mergedIds` only
when more than one session was merged. -/
def mergedRecords (dateSessions : List Session) : List Session :=
  (cardMap dateSessions).map
    (fun kv =>
      { kv.2.session with
        sessionCount := some kv.2.count
        mergedIds := if kv.2.ids.length > 1 then some kv.2.ids else none })

/-- The full `grouped` value of `useSessionsByDate`: date buckets in
first-occurrence order, each aggregated by card. -/
def grouped (sessions : List Session) : List (Int × List Session) :=
  (byDate sessions).map (fun kv => (kv.1, mergedRecords kv.2))

/-- The `deleteSession` callback of `useSessionsByDate`, reported as the
list of underlying session ids it deletes.  The source loops over
`Object.values(grouped)` with an unconditional `break` at the end of the
body, so only the first date bucket is ever inspected: when the record with
the requested id is found there with truthy `mergedIds`, all merged ids are
deleted, otherwise only the requested id is. -/
def deleteSessionIds (g : List (Int × List Session)) (id : String) :
    List String :=
  match g with
  | [] => []
  | (_, dateSessions) :: _ =>
    match dateSessions.find? (fun s => s.id = id) with
    | some s =>
      match s.mergedIds with
      | some ids => ids
      | none => [id]
    | none => [id]

/-- The per-group accumulation that `alookup` of a `cardMap` computes: the
entry obtained by folding the group's sessions, first into `initEntry`,
then through `updStep`. -/
def groupEntry (g : List Session) : Option MergeEntry :=
  g.foldl (stepOf initEntry updStep) none

/-- Folding further sessions into an existing `cardMap` entry. -/
def mergeFold (e : MergeEntry) (g : List Session) : MergeEntry :=
  g.foldl updStep e

end useSessionsByDate

/-- Concrete timer payload used by witnesses and counterexamples. -/
def sampleData : TimerData :=
  { cardId := "card-1", boardId := "board-1", notes := none,
    previousElapsed := none }

/-- A snapshot persisted right after `start` followed by an immediate
`pause`: paused with zero elapsed. -/
def snapPausedZero : Timer.Snapshot :=
  { state := .paused, data := some sampleData, startTime := none,
    elapsed := 0, previousElapsed := 0, mode := .stopwatch, duration := none }

/-- A snapshot persisted with the `completed` tag and a positive frozen
elapsed value. -/
def snapCompletedSeven : Timer.Snapshot :=
  { state := .completed, data := some sampleData, startTime := none,
    elapsed := 7, previousElapsed := 0, mode := .stopwatch, duration := none }

/-- A snapshot persisted while a 10-second countdown was running, start
instant 500. -/
def snapRunningCountdown : Timer.Snapshot :=
  { state := .running, data := some sampleData, startTime := some 500,
    elapsed := 0, previousElapsed := 0, mode := .countdown, duration := some 10 }

/-- Helper building a concrete session. -/
def mkSession (id acct card board : String) (st : Int) (et : Option Int)
    (dur : Int) : Session :=
  { id := id, accountId := acct, userId := "user-1", cardId := card,
    cardTitle := "title", cardNumber := 1, boardId := board,
    boardName := "board", startTime := st, endTime := et, duration := dur,
    notes := none, synced := false, mergedIds := none, sessionCount := none }

/-- Three sessions: one on day 0, and two on day 1 sharing a card, so the
aggregated view for day 1 holds a single merged record. -/
def exList : List Session :=
  [mkSession "s1" "acct" "cX" "bX" 0 (some 1) 5,
   mkSession "s2" "acct" "c1" "b1" 86400000 (some 86400001) 100,
   mkSession "s3" "acct" "c1" "b1" 86400500 (some 86400501) 200]

/-- Two same-day sessions whose distinct `(cardId, boardId)` pairs collide
on the concatenated grouping key: `"a" + "-" + "b-c"` equals
`"a-b" + "-" + "c"`. -/
def colList : List Session :=
  [mkSession "x1" "acct" "a" "b-c" 10 (some 11) 7,
   mkSession "x2" "acct" "a-b" "c" 20 (some 21) 8]

/-- First of three same-card same-date sessions (durations 100/200/300). -/
def tripleA : Session := mkSession "t1" "acct" "card-m" "board-m" 1000 (some 101000) 100

/-- Second of the three. -/
def tripleB : Session := mkSession "t2" "acct" "card-m" "board-m" 200000 (some 401000) 200

/-- Third of the three. -/
def tripleC : Session := mkSession "t3" "acct" "card-m" "board-m" 500000 (some 801000) 300

/-- Three sessions on the same card, board and calendar date, with
durations 100, 200 and 300 seconds. -/
def mergeTriple : List Session := [tripleA, tripleB, tripleC]




/-!
## Claim C7 — invalid-state calls
-/

/-- Claim C7, as stated, is false at a concrete input: `stop()` invoked from
`idle` (a state where the spec says it is not valid) is not a no-op — it
moves the timer to `completed`. -/
theorem C7_counterexample :
    Timer.stop Timer.initialTimer ≠ Timer.initialTimer ∧
    Timer.initialTimer.state = TimerState.idle ∧
    (Timer.stop Timer.initialTimer).state = TimerState.completed := by
  decide

/-- Claim C7 (amended): every operation is a total function (nothing
throws); `pause` when not running, `resume` when not paused and `resync`
when not running are silently ignored; but `start` and `stop` carry no
state guard — from any state `start` restarts into `running` and `stop`
moves to `completed`. -/
theorem C7_invalid_state_calls (t : Timer.State) (n1 n2 n3 : Int)
    (d : TimerData) (dur : Option Int) :
    (t.state ≠ TimerState.running → Timer.pause t = t) ∧
    (t.state ≠ TimerState.paused → Timer.resume n1 t = t) ∧
    (t.state ≠ TimerState.running → Timer.resync n2 t = t) ∧
    (Timer.start d dur n3 t).state = TimerState.running ∧
    (Timer.stop t).state = TimerState.completed := by
  refine ⟨?_, ?_, ?_, rfl, rfl⟩
  · intro h; simp [Timer.pause, h]
  · intro h; simp [Timer.resume, h]
  · intro h; simp [Timer.resync, h]

/-- Witness for `C7_invalid_state_calls` at the initial (idle) state. -/
theorem C7_invalid_state_calls_witness :
    Timer.pause Timer.initialTimer = Timer.initialTimer ∧
    Timer.resume 1 Timer.initialTimer = Timer.initialTimer ∧
    Timer.resync 2 Timer.initialTimer = Timer.initialTimer ∧
    (Timer.start sampleData none 3 Timer.initialTimer).state =
      TimerState.running ∧
    (Timer.stop Timer.initialTimer).state = TimerState.completed := by
  have h := C7_invalid_state_calls Timer.initialTimer 1 2 3 sampleData none
  exact ⟨h.1 (by decide), h.2.1 (by decide), h.2.2.1 (by decide),
    h.2.2.2.1, h.2.2.2.2⟩

/-!
## Claim C8 — start semantics
-/

/-- Claim C8, as stated, is false at a concrete input: `start(data, 0)`
yields stopwatch mode, because the source picks the mode by JavaScript
truthiness (`durationSeconds ? "countdown" : "stopwatch"`) and `0` is
falsy. -/
theorem C8_counterexample :
    (Timer.start sampleData (some 0) 5 Timer.initialTimer).mode ≠
      TimerMode.countdown ∧
    (Timer.start sampleData (some 0) 5 Timer.initialTimer).mode =
      TimerMode.stopwatch := by
  decide

/-- Claim C8 (amended): mode is countdown iff `durationSeconds` is provided
and nonzero (truthy); the session counter resets to 0; `previousElapsed` is
seeded from `data.previousElapsed || 0` so the displayed total is
continuous; the wall-clock start instant is recorded; the state becomes
`running`. -/
theorem C8_start_semantics (d : TimerData) (dur : Option Int) (now : Int)
    (t : Timer.State) :
    ((Timer.start d dur now t).mode = TimerMode.countdown ↔
      ∃ v, dur = some v ∧ v ≠ 0) ∧
    (Timer.start d dur now t).currentSessionElapsed = 0 ∧
    (Timer.start d dur now t).previousElapsed = d.previousElapsed.getD 0 ∧
    Timer.totalElapsed (Timer.start d dur now t) = d.previousElapsed.getD 0 ∧
    (Timer.start d dur now t).startTime = some now ∧
    (Timer.start d dur now t).state = TimerState.running := by
  refine ⟨?_, rfl, rfl, by simp [Timer.totalElapsed, Timer.start], rfl, rfl⟩
  cases dur with
  | none => simp [Timer.start, truthy]
  | some v =>
    by_cases hv : v = 0 <;> simp [Timer.start, truthy, hv]

/-- Witness for `C8_start_semantics` at a 25-minute countdown start. -/
theorem C8_start_semantics_witness :
    (Timer.start sampleData (some 1500) 9 Timer.initialTimer).mode =
      TimerMode.countdown ∧
    (Timer.start sampleData (some 1500) 9 Timer.initialTimer).startTime =
      some 9 := by
  have h := C8_start_semantics sampleData (some 1500) 9 Timer.initialTimer
  exact ⟨h.1.mpr ⟨1500, rfl, by decide⟩, h.2.2.2.2.1⟩

/-!
## Claim C10 — restoration ignores the saved state tag
-/

/-- Claim C10: when the saved snapshot has data and does not qualify as
running (no truthy start instant together with the `running` tag), the
restored state depends only on whether the stored elapsed is positive —
`paused` with the stored elapsed when it is, `idle` otherwise — regardless
of the snapshot's state tag. -/
theorem C10_restore_ignores_tag (sp : Timer.Snapshot) (d : TimerData)
    (now : Int) (hdata : sp.data = some d)
    (hnotrun : ¬(truthy sp.startTime = true ∧ sp.state = TimerState.running)) :
    (0 < sp.elapsed →
      (Timer.restoreOnMount (some sp) now).state = TimerState.paused ∧
      (Timer.restoreOnMount (some sp) now).currentSessionElapsed =
        sp.elapsed) ∧
    (sp.elapsed ≤ 0 →
      (Timer.restoreOnMount (some sp) now).state = TimerState.idle) := by
  have hsaved : Timer.getSavedTimerState (some sp) now =
      { data := sp.data, startTime := none, elapsed := sp.elapsed,
        previousElapsed := sp.previousElapsed, mode := sp.mode,
        duration := sp.duration } := by
    simp only [Timer.getSavedTimerState]
    rw [if_neg hnotrun]
  constructor
  · intro h
    simp [Timer.restoreOnMount, hsaved, hdata, truthy, h]
  · intro h
    have h2 : ¬(sp.elapsed > 0) := by omega
    simp [Timer.restoreOnMount, hsaved, hdata, truthy, h2,
      Timer.initialTimer]

/-- Witness for `C10_restore_ignores_tag`: a snapshot saved with the
`completed` tag and elapsed 7 restores into `paused` with elapsed 7, and a
snapshot saved as `paused` with elapsed 0 restores into `idle`. -/
theorem C10_restore_ignores_tag_witness :
    ((Timer.restoreOnMount (some snapCompletedSeven) 999).state =
        TimerState.paused ∧
      (Timer.restoreOnMount (some snapCompletedSeven) 999).currentSessionElapsed
        = 7) ∧
    (Timer.restoreOnMount (some snapPausedZero) 999).state =
      TimerState.idle := by
  have h1 := C10_restore_ignores_tag snapCompletedSeven sampleData 999 rfl
    (by decide)
  have h2 := C10_restore_ignores_tag snapPausedZero sampleData 999 rfl
    (by decide)
  exact ⟨h1.1 (by decide), h2.2 (by decide)⟩

/-!
## Claim C5 — countdown clamp and remaining
-/

/-- Claim C5: when a running countdown with a positive target `D` recomputes
an elapsed value of at least `D` (through the tick or through `resync`), the
engine clamps the session elapsed to `D` and completes; `remaining` equals
`max 0 (D - sessionElapsed)`, hence is never negative, and is reported as 0
in stopwatch mode. -/
theorem C5_countdown_clamp (t : Timer.State) (D now st : Int)
    (hmode : t.mode = TimerMode.countdown) (hdur : t.duration = some D)
    (hD : 0 < D) (hstate : t.state = TimerState.running)
    (hst : t.startTime = some st) (hst0 : st ≠ 0)
    (helapsed : D ≤ Int.fdiv (now - st) 1000) :
    (Timer.tick now t).state = TimerState.completed ∧
    (Timer.tick now t).currentSessionElapsed = D ∧
    Timer.remaining (Timer.tick now t) = 0 ∧
    (Timer.resync now t).state = TimerState.completed ∧
    (Timer.resync now t).currentSessionElapsed = D ∧
    Timer.remaining t = max 0 (D - t.currentSessionElapsed) ∧
    (∀ u : Timer.State, 0 ≤ Timer.remaining u) ∧
    (∀ u : Timer.State, u.mode = TimerMode.stopwatch →
      Timer.remaining u = 0) := by
  have h1 : truthy (some st) = true := by simp [truthy, hst0]
  have h2 : truthy (some D) = true := by
    simp only [truthy, bne_iff_ne]; omega
  have htick : Timer.tick now t =
      { t with
        currentSessionElapsed := D
        state := TimerState.completed
        startTime := none } := by
    simp [Timer.tick, hstate, h1, h2, hmode, hst, hdur, helapsed, ge_iff_le]
  have hresync : Timer.resync now t =
      { t with
        currentSessionElapsed := D
        state := TimerState.completed
        startTime := none } := by
    simp [Timer.resync, hstate, h1, h2, hmode, hst, hdur, helapsed, ge_iff_le]
  refine ⟨by rw [htick], by rw [htick], ?_, by rw [hresync], by rw [hresync],
    ?_, ?_, ?_⟩
  · rw [htick]
    simp [Timer.remaining, hmode, hdur, h2]
  · simp [Timer.remaining, hmode, hdur, h2]
  · intro u
    unfold Timer.remaining
    split
    · exact le_max_left 0 _
    · exact le_refl 0
  · intro u hu
    simp [Timer.remaining, hu]

/-- Witness for `C5_countdown_clamp`: a 5-second countdown started at
instant 1000 and ticked at instant 7000 clamps to 5 and completes. -/
theorem C5_countdown_clamp_witness :
    (Timer.tick 7000 (Timer.start sampleData (some 5) 1000
      Timer.initialTimer)).state = TimerState.completed ∧
    (Timer.tick 7000 (Timer.start sampleData (some 5) 1000
      Timer.initialTimer)).currentSessionElapsed = 5 ∧
    Timer.remaining (Timer.tick 7000 (Timer.start sampleData (some 5) 1000
      Timer.initialTimer)) = 0 ∧
    (Timer.resync 7000 (Timer.start sampleData (some 5) 1000
      Timer.initialTimer)).state = TimerState.completed ∧
    0 ≤ Timer.remaining Timer.initialTimer ∧
    Timer.remaining Timer.initialTimer = 0 := by
  have h := C5_countdown_clamp
    (Timer.start sampleData (some 5) 1000 Timer.initialTimer) 5 7000 1000
    (by decide) (by decide) (by decide) (by decide) (by decide) (by decide)
    (by decide)
  exact ⟨h.1, h.2.1, h.2.2.1, h.2.2.2.1,
    h.2.2.2.2.2.2.1 Timer.initialTimer,
    h.2.2.2.2.2.2.2 Timer.initialTimer rfl⟩

/-!
## Claim C6 — restoration from a persisted snapshot
-/

/-- Shared arithmetic bridge: `Int.fdiv` by 1000 agrees with Euclidean
division by the positive constant 1000. -/
theorem fdiv_thousand (a : Int) : Int.fdiv a 1000 = a / 1000 :=
  Int.fdiv_eq_ediv a (by norm_num)

/-- Claim C6, as stated, is false at a concrete input: a snapshot showing a
paused state with no start instant but stored elapsed 0 is restored into
`idle`, not into `paused` with the stored elapsed value. -/
theorem C6_counterexample :
    snapPausedZero.state = TimerState.paused ∧
    snapPausedZero.startTime = none ∧
    snapPausedZero.elapsed = 0 ∧
    (Timer.restoreOnMount (some snapPausedZero) 999).state =
      TimerState.idle ∧
    (Timer.restoreOnMount (some snapPausedZero) 999).state ≠
      TimerState.paused := by
  decide

/-- Claim C6 (amended): restoration is a function of the snapshot and the
restore instant.  A running snapshot with start instant `T > 0` restored at
`T + 1000k` (k seconds later) yields `running` with session elapsed `k`
when in stopwatch mode or when `k` is below the (positive) countdown
target, and yields `completed` directly with elapsed clamped to the target
when `k` reaches it.  A snapshot with no start instant and stored elapsed
`> 0` (the qualification the counterexample forces) restores directly into
`paused` with the stored elapsed value. -/
theorem C6_restore (sp : Timer.Snapshot) (d : TimerData) (T k D : Int) :
    (sp.data = some d → sp.state = TimerState.running →
     sp.startTime = some T → 0 < T → 0 ≤ k →
      ((sp.mode = TimerMode.stopwatch →
        (Timer.restoreOnMount (some sp) (T + 1000 * k)).state =
          TimerState.running ∧
        (Timer.restoreOnMount (some sp) (T + 1000 * k)).currentSessionElapsed
          = k) ∧
       (sp.mode = TimerMode.countdown → sp.duration = some D → 0 < D →
        ((k < D →
          (Timer.restoreOnMount (some sp) (T + 1000 * k)).state =
            TimerState.running ∧
          (Timer.restoreOnMount (some sp) (T + 1000 * k)).currentSessionElapsed
            = k) ∧
         (D ≤ k →
          (Timer.restoreOnMount (some sp) (T + 1000 * k)).state =
            TimerState.completed ∧
          (Timer.restoreOnMount (some sp) (T + 1000 * k)).currentSessionElapsed
            = D ∧
          (Timer.restoreOnMount (some sp) (T + 1000 * k)).startTime =
            none))))) ∧
    (∀ now, sp.data = some d → sp.startTime = none → 0 < sp.elapsed →
      (Timer.restoreOnMount (some sp) now).state = TimerState.paused ∧
      (Timer.restoreOnMount (some sp) now).currentSessionElapsed =
        sp.elapsed) := by
  constructor
  · intro hdata hrun hst hT hk
    have hTne : T ≠ 0 := by omega
    have hcond : truthy sp.startTime = true ∧ sp.state = TimerState.running :=
      ⟨by rw [hst]; simp [truthy, hTne], hrun⟩
    have hel : Int.fdiv (T + 1000 * k - T) 1000 = k := by
      rw [fdiv_thousand]; omega
    constructor
    · intro hmode
      simp [Timer.restoreOnMount, Timer.getSavedTimerState, if_pos hcond,
        hdata, hrun, hst, truthy, hTne, hel, hmode]
    · intro hmode hdur hD
      have hDtr : truthy (some D) = true := by
        simp only [truthy, bne_iff_ne]; omega
      have hDne : D ≠ 0 := by omega
      constructor
      · intro hkD
        have hno : ¬(D - k ≤ 0) := by omega
        simp [Timer.restoreOnMount, Timer.getSavedTimerState, if_pos hcond,
          hdata, hrun, hst, truthy, hTne, hel, hmode, hdur, hDtr, hDne, hno]
      · intro hDk
        have hyes : D - k ≤ 0 := by omega
        simp [Timer.restoreOnMount, Timer.getSavedTimerState, if_pos hcond,
          hdata, hrun, hst, truthy, hTne, hel, hmode, hdur, hDtr, hDne, hyes]
  · intro now hdata hst hel
    have hcond : ¬(truthy sp.startTime = true ∧ sp.state = TimerState.running) := by
      rw [hst]; simp [truthy]
    have hsaved : Timer.getSavedTimerState (some sp) now =
        { data := sp.data
          startTime := none
          elapsed := sp.elapsed
          previousElapsed := sp.previousElapsed
          mode := sp.mode
          duration := sp.duration } := by
      simp only [Timer.getSavedTimerState]
      rw [if_neg hcond]
    simp [Timer.restoreOnMount, hsaved, hdata, truthy, hel]

/-- Witness for `C6_restore`: the 10-second countdown snapshot with start
instant 500 restores to `running` with elapsed 3 at `T + 3s`, and directly
to `completed` with elapsed 10 at `T + 12s`; the completed-tagged snapshot
with stored elapsed 7 and no start instant restores to `paused` at 7. -/
theorem C6_restore_witness :
    ((Timer.restoreOnMount (some snapRunningCountdown)
        (500 + 1000 * 3)).state = TimerState.running ∧
      (Timer.restoreOnMount (some snapRunningCountdown)
        (500 + 1000 * 3)).currentSessionElapsed = 3) ∧
    ((Timer.restoreOnMount (some snapRunningCountdown)
        (500 + 1000 * 12)).state = TimerState.completed ∧
      (Timer.restoreOnMount (some snapRunningCountdown)
        (500 + 1000 * 12)).currentSessionElapsed = 10 ∧
      (Timer.restoreOnMount (some snapRunningCountdown)
        (500 + 1000 * 12)).startTime = none) ∧
    ((Timer.restoreOnMount (some snapCompletedSeven) 999).state =
        TimerState.paused ∧
      (Timer.restoreOnMount (some snapCompletedSeven) 999).currentSessionElapsed
        = 7) := by
  have h1 := C6_restore snapRunningCountdown sampleData 500 3 10
  have h2 := C6_restore snapRunningCountdown sampleData 500 12 10
  have h3 := C6_restore snapCompletedSeven sampleData 500 0 0
  exact ⟨((h1.1 rfl rfl rfl (by decide) (by decide)).2 rfl rfl
      (by decide)).1 (by decide),
    ((h2.1 rfl rfl rfl (by decide) (by decide)).2 rfl rfl
      (by decide)).2 (by decide),
    h3.2 999 rfl rfl (by decide)⟩

/-!
## Claim C2 — pause/resume preserves the elapsed sum
-/

/-- Chronological cycle lists contribute a nonnegative elapsed sum. -/
theorem sumCycles_nonneg (cs : List (Int × Int)) :
    ∀ last, Timer.chron last cs = true → 0 ≤ Timer.sumCycles cs := by
  induction cs with
  | nil => intro last _; simp [Timer.sumCycles]
  | cons c cs ih =>
    obtain ⟨r, p⟩ := c
    intro last h
    simp only [Timer.chron, Bool.and_eq_true, decide_eq_true_eq] at h
    obtain ⟨⟨h1, h2⟩, h3⟩ := h
    have htail := ih p h3
    have hf : 0 ≤ Int.fdiv (p - r) 1000 := by rw [fdiv_thousand]; omega
    simp only [Timer.sumCycles, List.map_cons, List.sum_cons] at htail ⊢
    omega

/-- One pause/resume cycle of a running timer that does not reach a
countdown target: pausing, resuming at `r` and letting the interval tick at
`p` leaves the timer running with the synthetic start instant
`r - elapsed * 1000` and grows the elapsed value by exactly the
whole-second length of the new running interval. -/
theorem cycleStep_spec (t : Timer.State) (r p st : Int)
    (hstate : t.state = TimerState.running)
    (hst : t.startTime = some st)
    (hbound : 1000 * t.currentSessionElapsed ≤ r - st) (hstpos : 0 < st)
    (hE : 0 ≤ t.currentSessionElapsed) (hrp : r ≤ p)
    (hnc : t.mode = TimerMode.countdown ∧ truthy t.duration = true →
      t.currentSessionElapsed + Int.fdiv (p - r) 1000 < t.duration.getD 0) :
    Timer.cycleStep t (r, p) =
      { t with
        currentSessionElapsed :=
          t.currentSessionElapsed + Int.fdiv (p - r) 1000
        startTime := some (r - t.currentSessionElapsed * 1000) } := by
  have hsynth : r - t.currentSessionElapsed * 1000 ≠ 0 := by omega
  have helapsed :
      Int.fdiv (p - (r - t.currentSessionElapsed * 1000)) 1000 =
        t.currentSessionElapsed + Int.fdiv (p - r) 1000 := by
    rw [fdiv_thousand, fdiv_thousand]
    omega
  by_cases hC : t.mode = TimerMode.countdown ∧ truthy t.duration = true
  · have hlt := hnc hC
    have hnotge : ¬(t.duration.getD 0 ≤
        t.currentSessionElapsed + Int.fdiv (p - r) 1000) := by omega
    simp [Timer.cycleStep, Timer.pause, Timer.resume, Timer.tick, hstate,
      truthy, hsynth, helapsed, hC.1, hC.2, hnotge, ge_iff_le]
  · simp [Timer.cycleStep, Timer.pause, Timer.resume, Timer.tick, hstate,
      truthy, hsynth, helapsed, hC]
    intro h1 h2
    exact absurd ⟨h1, by simpa [truthy] using h2⟩ hC

/-- Invariant through a chronological cycle list, for any run that never
reaches a countdown target: the timer stays running with its mode and
duration unchanged, its elapsed value accumulates the whole-second lengths
of the running intervals, and the synthetic start instant stays positive
with `1000 * elapsed` bounded by the time elapsed since it. -/
theorem runCycles_spec (cs : List (Int × Int)) :
    ∀ (t : Timer.State) (last st : Int),
      t.state = TimerState.running →
      0 ≤ t.currentSessionElapsed →
      t.startTime = some st → 0 < st →
      1000 * t.currentSessionElapsed ≤ last - st →
      Timer.chron last cs = true →
      (t.mode = TimerMode.countdown ∧ truthy t.duration = true →
        t.currentSessionElapsed + Timer.sumCycles cs < t.duration.getD 0) →
      (Timer.runCycles t cs).state = TimerState.running ∧
      (Timer.runCycles t cs).mode = t.mode ∧
      (Timer.runCycles t cs).duration = t.duration ∧
      (Timer.runCycles t cs).currentSessionElapsed =
        t.currentSessionElapsed + Timer.sumCycles cs ∧
      0 ≤ (Timer.runCycles t cs).currentSessionElapsed ∧
      ∃ st2, (Timer.runCycles t cs).startTime = some st2 ∧ 0 < st2 ∧
        1000 * (Timer.runCycles t cs).currentSessionElapsed ≤
          Timer.lastTick last cs - st2 := by
  induction cs with
  | nil =>
    intro t last st h1 h4 h5 h6 h7 _ _
    exact ⟨h1, rfl, rfl, by simp [Timer.runCycles, Timer.sumCycles], h4,
      st, h5, h6, h7⟩
  | cons c cs ih =>
    obtain ⟨r, p⟩ := c
    intro t last st h1 h4 h5 h6 h7 hchron hnc
    simp only [Timer.chron, Bool.and_eq_true, decide_eq_true_eq] at hchron
    obtain ⟨⟨hlr, hrp⟩, hrest⟩ := hchron
    have hsumtail : 0 ≤ Timer.sumCycles cs := sumCycles_nonneg cs p hrest
    have hfstep : 0 ≤ Int.fdiv (p - r) 1000 := by rw [fdiv_thousand]; omega
    have hsumcons : Timer.sumCycles ((r, p) :: cs) =
        Int.fdiv (p - r) 1000 + Timer.sumCycles cs := by
      simp [Timer.sumCycles]
    have hnc1 : t.mode = TimerMode.countdown ∧ truthy t.duration = true →
        t.currentSessionElapsed + Int.fdiv (p - r) 1000 <
          t.duration.getD 0 := by
      intro hC
      have hall := hnc hC
      rw [hsumcons] at hall
      omega
    have hstep := cycleStep_spec t r p st h1 h5 (by omega) h6 h4 hrp hnc1
    have hrun : Timer.runCycles t ((r, p) :: cs) =
        Timer.runCycles (Timer.cycleStep t (r, p)) cs := rfl
    rw [hrun, hstep]
    have h4' : 0 ≤ t.currentSessionElapsed + Int.fdiv (p - r) 1000 := by
      omega
    have hpos : 0 < r - t.currentSessionElapsed * 1000 := by omega
    have hbound' :
        1000 * (t.currentSessionElapsed + Int.fdiv (p - r) 1000) ≤
          p - (r - t.currentSessionElapsed * 1000) := by
      rw [fdiv_thousand]
      rw [fdiv_thousand] at h4' hfstep
      omega
    have hnc' : t.mode = TimerMode.countdown ∧ truthy t.duration = true →
        t.currentSessionElapsed + Int.fdiv (p - r) 1000 +
          Timer.sumCycles cs < t.duration.getD 0 := by
      intro hC
      have hall := hnc hC
      rw [hsumcons] at hall
      omega
    have hrec := ih
      { t with
        currentSessionElapsed :=
          t.currentSessionElapsed + Int.fdiv (p - r) 1000
        startTime := some (r - t.currentSessionElapsed * 1000) }
      p (r - t.currentSessionElapsed * 1000)
      h1 h4' rfl hpos hbound' hrest hnc'
    refine ⟨hrec.1, hrec.2.1, hrec.2.2.1, ?_, hrec.2.2.2.2.1, ?_⟩
    · rw [hrec.2.2.2.1, hsumcons]
      show t.currentSessionElapsed + Int.fdiv (p - r) 1000 +
        Timer.sumCycles cs = _
      omega
    · obtain ⟨st2, hst2, hpos2, hb2⟩ := hrec.2.2.2.2.2
      exact ⟨st2, hst2, hpos2, hb2⟩

/-- Claim C2, as stated, is false at a concrete input: a countdown run can
clamp.  Starting a 2-second countdown at instant 1000 with a single tick at
instant 6000 (one running interval of 5 whole seconds, no pause/resume
cycles) and stopping, the final session elapsed is the clamped target 2,
not the running-interval sum 5. -/
theorem C2_counterexample :
    (Timer.stop (Timer.runCycles (Timer.tick 6000 (Timer.start sampleData
        (some 2) 1000 Timer.initialTimer)) [])).currentSessionElapsed = 2 ∧
    Int.fdiv (6000 - 1000) 1000 + Timer.sumCycles [] = 5 ∧
    (Timer.stop (Timer.runCycles (Timer.tick 6000 (Timer.start sampleData
        (some 2) 1000 Timer.initialTimer)) [])).currentSessionElapsed ≠
      Int.fdiv (6000 - 1000) 1000 + Timer.sumCycles [] := by
  decide

/-- Claim C2 (amended): starting a timer at `t0` (stopwatch, or countdown
whose target the run never reaches — the qualification the counterexample
forces), ticking last at `e1`, then running any finite chronological list
of pause/resume cycles and stopping, the final session elapsed equals the
sum of the whole-second lengths of the running intervals — independent of
the number of cycles and of the time spent paused (the gaps between a tick
and the next resume are unconstrained).  Once a countdown tick reaches the
target, the elapsed is instead clamped to the target. -/
theorem C2_pause_resume_sum (d : TimerData) (dur : Option Int)
    (t0 e1 : Int) (cs : List (Int × Int)) (h0 : 0 < t0) (h1 : t0 ≤ e1)
    (hc : Timer.chron e1 cs = true)
    (hbelow : ∀ D, dur = some D → D ≠ 0 →
      Int.fdiv (e1 - t0) 1000 + Timer.sumCycles cs < D) :
    (Timer.stop (Timer.runCycles
        (Timer.tick e1 (Timer.start d dur t0 Timer.initialTimer)) cs)).state
      = TimerState.completed ∧
    (Timer.stop (Timer.runCycles
        (Timer.tick e1 (Timer.start d dur t0 Timer.initialTimer))
        cs)).currentSessionElapsed
      = Int.fdiv (e1 - t0) 1000 + Timer.sumCycles cs := by
  have ht0 : t0 ≠ 0 := by omega
  have hsum0 : 0 ≤ Timer.sumCycles cs := sumCycles_nonneg cs e1 hc
  have hstart_tick :
      Timer.tick e1 (Timer.start d dur t0 Timer.initialTimer) =
        { Timer.start d dur t0 Timer.initialTimer with
          currentSessionElapsed := Int.fdiv (e1 - t0) 1000 } := by
    by_cases htr : truthy dur = true
    · obtain ⟨D, hD⟩ : ∃ D, dur = some D := by
        cases dur with
        | none => simp [truthy] at htr
        | some v => exact ⟨v, rfl⟩
      have hDne : D ≠ 0 := by
        subst hD
        simpa [truthy] using htr
      have hlt := hbelow D hD hDne
      have hnotge : ¬(D ≤ Int.fdiv (e1 - t0) 1000) := by omega
      simp [Timer.tick, Timer.start, truthy, ht0, htr, hD, hDne, hnotge,
        ge_iff_le]
    · have htr2 : truthy dur = false := by simpa using htr
      simp [Timer.tick, Timer.start, truthy, ht0, htr2]
      intro h2
      exact absurd (show truthy dur = true by simpa [truthy] using h2) htr
  rw [hstart_tick]
  have hfd0 : 0 ≤ Int.fdiv (e1 - t0) 1000 := by rw [fdiv_thousand]; omega
  have hbound0 : 1000 * Int.fdiv (e1 - t0) 1000 ≤ e1 - t0 := by
    rw [fdiv_thousand]; omega
  have hnc0 : ({ Timer.start d dur t0 Timer.initialTimer with
        currentSessionElapsed :=
          Int.fdiv (e1 - t0) 1000 } : Timer.State).mode =
          TimerMode.countdown ∧
      truthy ({ Timer.start d dur t0 Timer.initialTimer with
        currentSessionElapsed :=
          Int.fdiv (e1 - t0) 1000 } : Timer.State).duration = true →
      ({ Timer.start d dur t0 Timer.initialTimer with
        currentSessionElapsed :=
          Int.fdiv (e1 - t0) 1000 } : Timer.State).currentSessionElapsed +
        Timer.sumCycles cs <
        ({ Timer.start d dur t0 Timer.initialTimer with
          currentSessionElapsed :=
            Int.fdiv (e1 - t0) 1000 } : Timer.State).duration.getD 0 := by
    intro hC
    have htr : truthy dur = true := hC.2
    obtain ⟨D, hD⟩ : ∃ D, dur = some D := by
      cases dur with
      | none => simp [truthy] at htr
      | some v => exact ⟨v, rfl⟩
    have hDne : D ≠ 0 := by
      subst hD
      simpa [truthy] using htr
    show Int.fdiv (e1 - t0) 1000 + Timer.sumCycles cs < dur.getD 0
    rw [hD]
    exact hbelow D hD hDne
  have hspec := runCycles_spec cs
    { Timer.start d dur t0 Timer.initialTimer with
      currentSessionElapsed := Int.fdiv (e1 - t0) 1000 }
    e1 t0 rfl hfd0 rfl h0 hbound0 hc hnc0
  exact ⟨rfl, hspec.2.2.2.1⟩

/-- Witness for `C2_pause_resume_sum`: start at 1, tick at 2501 (2 whole
seconds), one cycle resuming at 3000 and ticking at 4200 (1 whole second);
the stopped timer reads 3 seconds — both as a stopwatch and as a 100-second
countdown that never reaches its target. -/
theorem C2_pause_resume_sum_witness :
    ((Timer.stop (Timer.runCycles
        (Timer.tick 2501 (Timer.start sampleData none 1 Timer.initialTimer))
        [(3000, 4200)])).state = TimerState.completed ∧
      (Timer.stop (Timer.runCycles
        (Timer.tick 2501 (Timer.start sampleData none 1 Timer.initialTimer))
        [(3000, 4200)])).currentSessionElapsed
        = Int.fdiv (2501 - 1) 1000 + Timer.sumCycles [(3000, 4200)]) ∧
    (Timer.stop (Timer.runCycles
        (Timer.tick 2501 (Timer.start sampleData (some 100) 1
          Timer.initialTimer))
        [(3000, 4200)])).currentSessionElapsed
      = Int.fdiv (2501 - 1) 1000 + Timer.sumCycles [(3000, 4200)] := by
  have h1 := C2_pause_resume_sum sampleData none 1 2501 [(3000, 4200)]
    (by decide) (by decide) (by decide) (by intro D hD; cases hD)
  have h2 := C2_pause_resume_sum sampleData (some 100) 1 2501 [(3000, 4200)]
    (by decide) (by decide) (by decide)
    (by
      intro D hD hDne
      have h100 : (100 : Int) = D := by injection hD
      subst h100
      decide)
  exact ⟨⟨h1.1, h1.2⟩, h2.2⟩

/-!
## Claim C1 — active-account exclusivity
-/

/-- Active count of a cons cell. -/
theorem countActive_cons (a : StoredAccount) (l : List StoredAccount) :
    accountOps.countActive (a :: l) =
      (if a.isActive then 1 else 0) + accountOps.countActive l := by
  by_cases h : a.isActive <;>
    simp [accountOps.countActive, List.filter_cons, h, Nat.add_comm]

/-- Active count distributes over append. -/
theorem countActive_append (l1 l2 : List StoredAccount) :
    accountOps.countActive (l1 ++ l2) =
      accountOps.countActive l1 + accountOps.countActive l2 := by
  simp [accountOps.countActive, List.filter_append]

/-- Deleting rows cannot increase the active count. -/
theorem countActive_filter_le (l : List StoredAccount)
    (p : StoredAccount → Bool) :
    accountOps.countActive (l.filter p) ≤ accountOps.countActive l :=
  ((List.filter_sublist l).filter _).length_le

/-- The `put` replacement map leaves the primary keys unchanged. -/
theorem ids_replace (tbl : List StoredAccount) (a : StoredAccount)
    (kid : String) (hk : a.id = kid) :
    (tbl.map (fun b => if b.id = kid then a else b)).map (fun x => x.id) =
      tbl.map (fun x => x.id) := by
  induction tbl with
  | nil => rfl
  | cons b l ih =>
    simp only [List.map_cons, ih]
    congr 1
    split
    · next h => rw [hk, h]
    · rfl

/-- Replacing one row by an inactive row cannot increase the active count. -/
theorem countActive_replace_le (tbl : List StoredAccount)
    (a : StoredAccount) (kid : String) (ha : a.isActive = false) :
    accountOps.countActive (tbl.map (fun b => if b.id = kid then a else b))
      ≤ accountOps.countActive tbl := by
  induction tbl with
  | nil => exact Nat.le_refl _
  | cons b l ih =>
    simp only [List.map_cons, countActive_cons]
    by_cases h : b.id = kid <;> simp [h, ha] <;> omega

/-- Operation `setActive` leaves the primary keys unchanged. -/
theorem ids_setActive (tbl : List StoredAccount) (k : String) (now : Int) :
    (accountOps.setActive tbl k now).map (fun a => a.id) =
      tbl.map (fun a => a.id) := by
  induction tbl with
  | nil => rfl
  | cons a l ih =>
    simp only [accountOps.setActive, List.map_cons] at ih ⊢
    rw [ih]
    congr 1
    split <;> rfl

/-- After `setActive`, the rows that are active are exactly the rows whose
primary key matches the requested id. -/
theorem countActive_setActive_eq (tbl : List StoredAccount) (k : String)
    (now : Int) :
    accountOps.countActive (accountOps.setActive tbl k now) =
      (tbl.filter (fun a => a.id = k)).length := by
  induction tbl with
  | nil => rfl
  | cons a l ih =>
    simp only [accountOps.setActive, List.map_map] at ih ⊢
    simp only [List.map_cons]
    by_cases h : a.id = k <;>
      simp [h, countActive_cons, List.filter_cons, ih] <;> omega

/-- With unique primary keys, at most one row matches any given id. -/
theorem filter_id_len_le_one (tbl : List StoredAccount) (k : String)
    (h : (tbl.map (fun a => a.id)).Nodup) :
    (tbl.filter (fun a => a.id = k)).length ≤ 1 := by
  induction tbl with
  | nil => simp
  | cons a l ih =>
    simp only [List.map_cons, List.nodup_cons] at h
    obtain ⟨hnotin, hnd⟩ := h
    by_cases hk : a.id = k
    · have hnil : l.filter (fun x => x.id = k) = [] := by
        rw [List.filter_eq_nil_iff]
        intro x hx
        simp only [decide_eq_true_eq]
        intro hxk
        exact hnotin (by
          rw [← hk] at hxk
          exact hxk ▸ List.mem_map_of_mem (fun a => a.id) hx)
      simp [List.filter_cons, hk, hnil]
    · simp only [List.filter_cons, hk]
      simpa using ih hnd

/-- Every well-formed table stays well-formed under one call, provided an
`add` passes `isActive: false`. -/
theorem wf_applyOp (tbl : List StoredAccount) (op : accountOps.Op)
    (hwf : accountOps.wf tbl) (hop : accountOps.addsInactive op = true) :
    accountOps.wf (accountOps.applyOp tbl op) := by
  obtain ⟨hnd, hcount⟩ := hwf
  cases op with
  | add account now =>
    have ha : account.isActive = false := by
      simpa [accountOps.addsInactive] using hop
    simp only [accountOps.applyOp, accountOps.add, accountOps.put]
    by_cases hmem :
        tbl.any (fun b => b.id = account.slug) = true
    · rw [if_pos hmem]
      exact ⟨by rw [ids_replace tbl _ account.slug rfl]; exact hnd,
        Nat.le_trans (countActive_replace_le tbl _ account.slug ha) hcount⟩
    · rw [if_neg hmem]
      constructor
      · rw [List.map_append]
        refine List.Nodup.append hnd (by simp) ?_
        intro x hx
        simp only [List.map_cons, List.map_nil, List.mem_singleton]
        intro hxa
        apply hmem
        rw [List.any_eq_true]
        obtain ⟨b, hb, hbid⟩ := List.mem_map.mp hx
        exact ⟨b, hb, by simp [hbid, hxa]⟩
      · rw [countActive_append, countActive_cons]
        simp only [ha]
        simpa [accountOps.countActive] using hcount
  | setActive k now =>
    refine ⟨?_, ?_⟩
    · show ((accountOps.setActive tbl k now).map (fun a => a.id)).Nodup
      rw [ids_setActive]; exact hnd
    · show accountOps.countActive (accountOps.setActive tbl k now) ≤ 1
      rw [countActive_setActive_eq]
      exact filter_id_len_le_one tbl k hnd
  | remove k =>
    refine ⟨?_, ?_⟩
    · exact ((List.filter_sublist tbl).map (fun a => a.id)).nodup hnd
    · exact Nat.le_trans (countActive_filter_le tbl _) hcount

/-- Well-formedness is preserved by any sequence of calls whose `add`s pass
`isActive: false`. -/
theorem wf_applyOps (ops : List accountOps.Op) :
    ∀ tbl, accountOps.wf tbl →
      (∀ op ∈ ops, accountOps.addsInactive op = true) →
      accountOps.wf (accountOps.applyOps tbl ops) := by
  induction ops with
  | nil => intro tbl h _; exact h
  | cons op ops ih =>
    intro tbl h hops
    exact ih _ (wf_applyOp tbl op h (hops op (by simp)))
      (fun o ho => hops o (by simp [ho]))

/-- Claim C1, as stated, is false at a concrete input: starting from the
empty table, two `add` calls that pass `isActive: true` (the signature
`Omit<StoredAccount, "id" | "lastUsed">` lets callers choose the flag, and
the setup route's `handleSelectAccount` does pass `isActive: true`) leave
two active accounts. -/
theorem C1_counterexample :
    accountOps.countActive (accountOps.applyOps []
      [accountOps.Op.add
        { token := "t1", slug := "acct-a", userId := "u1", name := "A",
          isActive := true } 1,
       accountOps.Op.add
        { token := "t2", slug := "acct-b", userId := "u2", name := "B",
          isActive := true } 2]) = 2 := by
  decide

/-- Claim C1 (amended): for any sequence of `add`/`setActive`/`remove`
calls in which every `add` passes `isActive: false`, starting from a
well-formed table (unique primary keys, at most one active row), after
every prefix of the sequence at most one stored account has
`isActive = true`.  The restriction on `add` is essential, not merely
convenient: the setup route does call `add` with `isActive: true`, so the
counterexample's violation is reachable in the application. -/
theorem C1_at_most_one_active (tbl : List StoredAccount)
    (ops pre suf : List accountOps.Op) (hwf : accountOps.wf tbl)
    (hops : ∀ op ∈ ops, accountOps.addsInactive op = true)
    (hsplit : ops = pre ++ suf) :
    accountOps.countActive (accountOps.applyOps tbl pre) ≤ 1 :=
  (wf_applyOps pre tbl hwf (fun op hop => hops op
    (by rw [hsplit]; exact List.mem_append_left _ hop))).2

/-- Witness for `C1_at_most_one_active` on a concrete call sequence. -/
theorem C1_at_most_one_active_witness :
    accountOps.countActive (accountOps.applyOps []
      [accountOps.Op.setActive "acct-a" 1]) ≤ 1 :=
  C1_at_most_one_active [] [accountOps.Op.setActive "acct-a" 1]
    [accountOps.Op.setActive "acct-a" 1] [] (by decide) (by decide) rfl

/-!
## Claim C9 — per-account session retrieval
-/

/-- Claim C9: `getAll` with a non-empty target account returns exactly the
sessions of that account (a permutation of the filtered table), sorted
newest-`startTime`-first; with no argument it resolves the active account,
returning `[]` when none resolves; consequently a session stored under a
different account id never appears in the result. -/
theorem C9_getAll_account_filter (sessions : List Session)
    (accounts : List StoredAccount) (target : String) (ht : target ≠ "") :
    (sessionOps.getAll sessions accounts (some target)).Perm
      (sessions.filter (fun s => s.accountId = target)) ∧
    List.Pairwise (fun a b : Session => b.startTime ≤ a.startTime)
      (sessionOps.getAll sessions accounts (some target)) ∧
    (∀ s ∈ sessionOps.getAll sessions accounts (some target),
      s.accountId = target) ∧
    (getActiveAccountId accounts = none →
      sessionOps.getAll sessions accounts none = []) ∧
    (getActiveAccountId accounts = some target →
      sessionOps.getAll sessions accounts none =
        sessionOps.getAll sessions accounts (some target)) ∧
    (∀ s ∈ sessions, s.accountId ≠ target →
      s ∉ sessionOps.getAll sessions accounts (some target)) := by
  have hget : sessionOps.getAll sessions accounts (some target) =
      (sessions.filter (fun s => s.accountId = target)).mergeSort
        (fun a b => b.startTime ≤ a.startTime) := by
    simp [sessionOps.getAll, ht]
  refine ⟨?_, ?_, ?_, ?_, ?_, ?_⟩
  · rw [hget]; exact List.mergeSort_perm _ _
  · rw [hget]
    have hs : ((sessions.filter (fun s => s.accountId = target)).mergeSort
        (fun a b => b.startTime ≤ a.startTime)).Pairwise
        (fun a b : Session => decide (b.startTime ≤ a.startTime) = true) :=
      List.sorted_mergeSort
        (by intro a b c h1 h2
            simp only [decide_eq_true_eq] at h1 h2 ⊢
            omega)
        (by intro a b
            simp only [Bool.or_eq_true, decide_eq_true_eq]
            omega)
        (sessions.filter (fun s => s.accountId = target))
    exact hs.imp (fun h => of_decide_eq_true h)
  · intro s hsmem
    rw [hget, List.mem_mergeSort] at hsmem
    exact of_decide_eq_true (List.mem_filter.mp hsmem).2
  · intro h
    simp [sessionOps.getAll, h]
  · intro h
    simp [sessionOps.getAll, h]
  · intro s _ hneq hcontra
    rw [hget, List.mem_mergeSort] at hcontra
    exact hneq (of_decide_eq_true (List.mem_filter.mp hcontra).2)

/-- Witness for `C9_getAll_account_filter` on concrete tables. -/
theorem C9_getAll_witness :
    (sessionOps.getAll exList [] (some "acct")).Perm
      (exList.filter (fun s => s.accountId = "acct")) ∧
    sessionOps.getAll exList [] none = [] := by
  have h := C9_getAll_account_filter exList [] "acct" (by decide)
  exact ⟨h.1, h.2.2.2.1 rfl⟩

/-!
## Claims C3/C4 — grouped aggregation: generic association-list lemmas
-/

section AssocLemmas

variable {α K E : Type} [DecidableEq K]
variable (key : α → K) (init : α → E) (upd : E → α → E)

/-- Lookup on a cons cell. -/
theorem alookup_cons (x : K × E) (l : List (K × E)) (k : K) :
    alookup (x :: l) k = if x.1 = k then some x.2 else alookup l k := by
  by_cases h : x.1 = k <;> simp [alookup, List.find?_cons, h]

/-- Lookup through the in-place update of all entries at one key. -/
theorem alookup_map_upd (acc : List (K × E)) (s : α) (k : K) :
    alookup (acc.map
        (fun kv => if kv.1 = key s then (kv.1, upd kv.2 s) else kv)) k =
      if key s = k then (alookup acc k).map (fun e => upd e s)
      else alookup acc k := by
  induction acc with
  | nil => by_cases h : key s = k <;> simp [alookup, h]
  | cons kv acc ih =>
    simp only [List.map_cons]
    by_cases h1 : kv.1 = key s
    · simp only [if_pos h1]
      rw [alookup_cons, alookup_cons]
      by_cases h2 : kv.1 = k
      · have h3 : key s = k := by rw [← h1, h2]
        simp [h2, h3]
      · have h3 : ¬key s = k := fun hc => h2 (h1.trans hc)
        simp [h2, h3, ih]
    · simp only [if_neg h1]
      rw [alookup_cons, alookup_cons]
      by_cases h2 : kv.1 = k
      · have h3 : ¬key s = k := fun hc => h1 (by rw [hc, h2])
        simp [h2, h3]
      · simp [h2, ih]

/-- Lookup through appending a single fresh entry. -/
theorem alookup_append_single (acc : List (K × E)) (kk : K) (e : E) (k : K) :
    alookup (acc ++ [(kk, e)]) k =
      match alookup acc k with
      | some v => some v
      | none => if kk = k then some e else none := by
  induction acc with
  | nil =>
    simp only [List.nil_append]
    rw [alookup_cons]
    rfl
  | cons kv acc ih =>
    simp only [List.cons_append]
    rw [alookup_cons, alookup_cons]
    by_cases h : kv.1 = k <;> simp [h, ih]

/-- A list containing an entry with a given key has a lookup result. -/
theorem alookup_isSome_of_mem (acc : List (K × E)) (x : K × E)
    (hx : x ∈ acc) : ∃ e, alookup acc x.1 = some e := by
  induction acc with
  | nil => cases hx
  | cons kv acc ih =>
    rw [alookup_cons]
    by_cases h : kv.1 = x.1
    · exact ⟨kv.2, by simp [h]⟩
    · rcases List.mem_cons.mp hx with rfl | hmem
      · exact absurd rfl h
      · simpa [h] using ih hmem

/-- A lookup result of `none` means no entry carries the key. -/
theorem alookup_none_of_not_any (acc : List (K × E)) (k : K)
    (h : ¬(acc.any (fun kv => kv.1 = k)) = true) : alookup acc k = none := by
  cases hfind : alookup acc k with
  | none => rfl
  | some e =>
    exfalso
    apply h
    rw [List.any_eq_true]
    simp only [alookup, Option.map_eq_some'] at hfind
    obtain ⟨kv, hkv, _⟩ := hfind
    exact ⟨kv, List.mem_of_find?_eq_some hkv,
      by simpa using List.find?_some hkv⟩

/-- Lookup through one `updEntry` step. -/
theorem alookup_updEntry (acc : List (K × E)) (s : α) (k : K) :
    alookup (updEntry key init upd acc s) k =
      if key s = k then stepOf init upd (alookup acc k) s
      else alookup acc k := by
  by_cases hany : (acc.any (fun kv => kv.1 = key s)) = true
  · simp only [updEntry, if_pos hany]
    rw [alookup_map_upd]
    by_cases h : key s = k
    · obtain ⟨x, hx, hxk⟩ := List.any_eq_true.mp hany
      have hxk2 : x.1 = key s := by simpa using hxk
      obtain ⟨e, he⟩ := alookup_isSome_of_mem acc x hx
      rw [hxk2, h] at he
      simp [h, he, stepOf]
    · simp [h]
  · simp only [updEntry, if_neg hany]
    rw [alookup_append_single]
    have hnone : alookup acc (key s) = none :=
      alookup_none_of_not_any acc (key s) hany
    by_cases h : key s = k
    · rw [← h, hnone]
      simp [stepOf]
    · cases halo : alookup acc k <;> simp [halo, h]

/-- Lookup after folding a list of elements into grouped entries: the entry
at a key is obtained by folding exactly the elements with that key. -/
theorem alookup_foldl (l : List α) :
    ∀ (acc : List (K × E)) (k : K),
      alookup (l.foldl (updEntry key init upd) acc) k =
        (l.filter (fun s => key s = k)).foldl (stepOf init upd)
          (alookup acc k) := by
  induction l with
  | nil => intro acc k; rfl
  | cons s l ih =>
    intro acc k
    rw [List.foldl_cons, ih, List.filter_cons]
    by_cases h : key s = k
    · rw [alookup_updEntry]
      simp [h]
    · rw [alookup_updEntry]
      simp [h]

/-- One `updEntry` step keeps the keys unique. -/
theorem keys_updEntry_nodup (acc : List (K × E)) (s : α)
    (h : (acc.map Prod.fst).Nodup) :
    ((updEntry key init upd acc s).map Prod.fst).Nodup := by
  by_cases hany : (acc.any (fun kv => kv.1 = key s)) = true
  · simp only [updEntry, if_pos hany]
    have heq : (acc.map
        (fun kv => if kv.1 = key s then (kv.1, upd kv.2 s) else kv)).map
          Prod.fst = acc.map Prod.fst := by
      rw [List.map_map]
      apply List.map_congr_left
      intro kv _
      by_cases hkv : kv.1 = key s <;> simp [hkv]
    rw [heq]; exact h
  · simp only [updEntry, if_neg hany]
    rw [List.map_append]
    refine List.Nodup.append h (by simp) ?_
    intro x hx
    simp only [List.map_cons, List.map_nil, List.mem_singleton]
    rintro rfl
    apply hany
    rw [List.any_eq_true]
    obtain ⟨kv, hkv, hfst⟩ := List.mem_map.mp hx
    exact ⟨kv, hkv, by simp [hfst]⟩

/-- Grouping a list produces entries with unique keys. -/
theorem keys_foldl_nodup (l : List α) :
    ∀ acc : List (K × E), (acc.map Prod.fst).Nodup →
      ((l.foldl (updEntry key init upd) acc).map Prod.fst).Nodup := by
  induction l with
  | nil => intro acc h; exact h
  | cons s l ih =>
    intro acc h
    exact ih _ (keys_updEntry_nodup key init upd acc s h)

/-- With unique keys, membership determines the lookup result. -/
theorem alookup_of_mem (acc : List (K × E)) (kv : K × E)
    (h : (acc.map Prod.fst).Nodup) (hmem : kv ∈ acc) :
    alookup acc kv.1 = some kv.2 := by
  induction acc with
  | nil => cases hmem
  | cons x acc ih =>
    simp only [List.map_cons, List.nodup_cons] at h
    rw [alookup_cons]
    rcases List.mem_cons.mp hmem with rfl | hmem2
    · simp
    · have hne : x.1 ≠ kv.1 := fun hc =>
        h.1 (hc ▸ List.mem_map_of_mem Prod.fst hmem2)
      simp [hne, ih h.2 hmem2]

/-- A successful lookup exhibits the entry itself. -/
theorem alookup_some_mem (acc : List (K × E)) (k : K) (e : E)
    (h : alookup acc k = some e) : (k, e) ∈ acc := by
  simp only [alookup, Option.map_eq_some'] at h
  obtain ⟨kv, hfind, hsnd⟩ := h
  have hfst : kv.1 = k := by simpa using List.find?_some hfind
  have hmem := List.mem_of_find?_eq_some hfind
  have : kv = (k, e) := by
    cases kv
    simp_all
  rw [← this]
  exact hmem

/-- With unique keys, the entries matching a key are exactly the looked-up
entry (or none at all). -/
theorem filter_fst_of_lookup (acc : List (K × E)) (k : K)
    (h : (acc.map Prod.fst).Nodup) :
    (∀ e, alookup acc k = some e →
      acc.filter (fun kv => kv.1 = k) = [(k, e)]) ∧
    (alookup acc k = none → acc.filter (fun kv => kv.1 = k) = []) := by
  induction acc with
  | nil => exact ⟨fun e he => by simp [alookup] at he, fun _ => rfl⟩
  | cons x acc ih =>
    simp only [List.map_cons, List.nodup_cons] at h
    obtain ⟨hx, hnd⟩ := h
    have ihh := ih hnd
    constructor
    · intro e he
      rw [alookup_cons] at he
      by_cases hk : x.1 = k
      · rw [if_pos hk] at he
        have hxe : x.2 = e := by injection he
        have hnone : alookup acc k = none := by
          cases hfind : alookup acc k with
          | none => rfl
          | some v =>
            exfalso
            have hmem := alookup_some_mem acc k v hfind
            have hkm : k ∈ acc.map Prod.fst :=
              List.mem_map_of_mem Prod.fst hmem
            rw [← hk] at hkm
            exact hx hkm
        have hxke : x = (k, e) := by
          cases x
          simp_all
        rw [List.filter_cons]
        simp [hk, ihh.2 hnone, hxke]
      · rw [if_neg hk] at he
        rw [List.filter_cons, if_neg (by simp [hk])]
        exact ihh.1 e he
    · intro he
      rw [alookup_cons] at he
      by_cases hk : x.1 = k
      · rw [if_pos hk] at he; cases he
      · rw [if_neg hk] at he
        rw [List.filter_cons, if_neg (by simp [hk])]
        exact ihh.2 he

end AssocLemmas

namespace useSessionsByDate

/-- Accumulating a date bucket by repeated `push` appends in order. -/
theorem foldl_push_group (g : List Session) :
    ∀ acc : List Session,
      g.foldl (stepOf (fun s => [s]) (fun gg s => gg ++ [s])) (some acc) =
        some (acc ++ g) := by
  induction g with
  | nil => intro acc; simp
  | cons s g ih =>
    intro acc
    rw [List.foldl_cons]
    have hstep : stepOf (fun s => [s]) (fun gg s => gg ++ [s]) (some acc) s =
        some (acc ++ [s]) := rfl
    rw [hstep]
    simpa using ih (acc ++ [s])

/-- The date bucket stored under a day key is exactly the subsequence of
sessions falling on that day. -/
theorem byDate_lookup (l : List Session) (dk : Int) :
    alookup (byDate l) dk =
      if l.filter (fun s => dateKey s.startTime = dk) = [] then none
      else some (l.filter (fun s => dateKey s.startTime = dk)) := by
  unfold byDate assocGroup
  rw [alookup_foldl,
    show alookup ([] : List (Int × List Session)) dk = none from rfl]
  cases hg : l.filter (fun s => dateKey s.startTime = dk) with
  | nil => simp
  | cons s g =>
    rw [List.foldl_cons]
    have hstep : stepOf (fun s => [s]) (fun gg s => gg ++ [s]) none s =
        some [s] := rfl
    rw [hstep]
    simpa using foldl_push_group g [s]

/-- The `cardMap` entry under a key is the fold of exactly the sessions
with that key. -/
theorem cardMap_lookup (ds : List Session) (k : String) :
    alookup (cardMap ds) k =
      groupEntry (ds.filter (fun s => cardKey s = k)) := by
  unfold cardMap assocGroup groupEntry
  rw [alookup_foldl,
    show alookup ([] : List (String × MergeEntry)) k = none from rfl]

/-- Folding into an existing entry stays `some`. -/
theorem foldl_some_mergeFold (g : List Session) :
    ∀ e : MergeEntry,
      g.foldl (stepOf initEntry updStep) (some e) = some (mergeFold e g) := by
  induction g with
  | nil => intro e; rfl
  | cons s g ih =>
    intro e
    rw [List.foldl_cons]
    exact ih (updStep e s)

/-- The group entry of a non-empty group. -/
theorem groupEntry_cons (s : Session) (g : List Session) :
    groupEntry (s :: g) = some (mergeFold (initEntry s) g) := by
  unfold groupEntry
  rw [List.foldl_cons]
  have hstep : stepOf initEntry updStep none s = some (initEntry s) := rfl
  rw [hstep]
  exact foldl_some_mergeFold g (initEntry s)

/-- Merging accumulates the count. -/
theorem mergeFold_count (g : List Session) :
    ∀ e : MergeEntry, (mergeFold e g).count = e.count + g.length := by
  induction g with
  | nil => intro e; rfl
  | cons s g ih =>
    intro e
    have hstep : mergeFold e (s :: g) = mergeFold (updStep e s) g := rfl
    rw [hstep, ih]
    simp [updStep]
    omega

/-- Merging accumulates the ids in order. -/
theorem mergeFold_ids (g : List Session) :
    ∀ e : MergeEntry,
      (mergeFold e g).ids = e.ids ++ g.map (fun s => s.id) := by
  induction g with
  | nil => intro e; simp [mergeFold]
  | cons s g ih =>
    intro e
    have hstep : mergeFold e (s :: g) = mergeFold (updStep e s) g := rfl
    rw [hstep, ih]
    simp [updStep]

/-- Merging sums the durations. -/
theorem mergeFold_duration (g : List Session) :
    ∀ e : MergeEntry,
      (mergeFold e g).session.duration =
        e.session.duration + (g.map (fun s => s.duration)).sum := by
  induction g with
  | nil => intro e; simp [mergeFold]
  | cons s g ih =>
    intro e
    have hstep : mergeFold e (s :: g) = mergeFold (updStep e s) g := rfl
    rw [hstep, ih]
    simp [updStep, mergeInto]
    omega

/-- Merging keeps the identity fields of the first session. -/
theorem mergeFold_identity (g : List Session) :
    ∀ e : MergeEntry,
      (mergeFold e g).session.cardId = e.session.cardId ∧
      (mergeFold e g).session.boardId = e.session.boardId ∧
      (mergeFold e g).session.id = e.session.id := by
  induction g with
  | nil => intro e; exact ⟨rfl, rfl, rfl⟩
  | cons s g ih =>
    intro e
    have hstep : mergeFold e (s :: g) = mergeFold (updStep e s) g := rfl
    rw [hstep, (ih (updStep e s)).1, (ih (updStep e s)).2.1,
      (ih (updStep e s)).2.2]
    exact ⟨rfl, rfl, rfl⟩

/-- Merging takes the minimum start time. -/
theorem mergeFold_startTime (g : List Session) :
    ∀ e : MergeEntry,
      (mergeFold e g).session.startTime ∈
        e.session.startTime :: g.map (fun s => s.startTime) ∧
      ∀ x ∈ e.session.startTime :: g.map (fun s => s.startTime),
        (mergeFold e g).session.startTime ≤ x := by
  induction g with
  | nil =>
    intro e
    refine ⟨List.mem_cons_self _ _, ?_⟩
    intro x hx
    simp only [List.map_nil, List.mem_singleton] at hx
    exact hx ▸ Int.le_refl _
  | cons s g ih =>
    intro e
    have hstep : mergeFold e (s :: g) = mergeFold (updStep e s) g := rfl
    rw [hstep]
    have h := ih (updStep e s)
    have hmin : (updStep e s).session.startTime =
        min e.session.startTime s.startTime := rfl
    constructor
    · rcases List.mem_cons.mp h.1 with heq | hmem
      · rw [heq, hmin]
        rcases min_choice e.session.startTime s.startTime with hc | hc <;>
          rw [hc]
        · exact List.mem_cons_self _ _
        · exact List.mem_cons_of_mem _ (by simp)
      · exact List.mem_cons_of_mem _ (by
          simp only [List.map_cons, List.mem_cons]
          right
          simpa using hmem)
    · intro x hx
      have hle : (mergeFold (updStep e s) g).session.startTime ≤
          min e.session.startTime s.startTime := by
        rw [← hmin]
        exact h.2 _ (List.mem_cons_self _ _)
      rcases List.mem_cons.mp hx with rfl | hx2
      · exact le_trans hle (min_le_left _ _)
      · simp only [List.map_cons, List.mem_cons] at hx2
        rcases hx2 with rfl | hx3
        · exact le_trans hle (min_le_right _ _)
        · exact h.2 x (List.mem_cons_of_mem _ (by simpa using hx3))

/-- Merging takes the maximum end time, when every merged session carries a
positive end time. -/
theorem mergeFold_endTime (g : List Session) :
    ∀ (e : MergeEntry) (M0 : Int), e.session.endTime = some M0 →
      (∀ s ∈ g, ∃ v, s.endTime = some v ∧ 0 < v) →
      ∃ M, (mergeFold e g).session.endTime = some M ∧
        M ∈ M0 :: g.map (fun s => s.endTime.getD 0) ∧
        ∀ x ∈ M0 :: g.map (fun s => s.endTime.getD 0), x ≤ M := by
  induction g with
  | nil =>
    intro e M0 he _
    refine ⟨M0, he, List.mem_cons_self _ _, ?_⟩
    intro x hx
    simp only [List.map_nil, List.mem_singleton] at hx
    exact hx ▸ Int.le_refl _
  | cons s g ih =>
    intro e M0 he hg
    have hstep : mergeFold e (s :: g) = mergeFold (updStep e s) g := rfl
    rw [hstep]
    obtain ⟨v, hv, hvpos⟩ := hg s (List.mem_cons_self _ _)
    have hvne : v ≠ 0 := by omega
    have hupd : (updStep e s).session.endTime = some (max M0 v) := by
      simp [updStep, mergeInto, hv, he, truthy, hvne]
    obtain ⟨M, hM, hMmem, hMub⟩ := ih (updStep e s) (max M0 v) hupd
      (fun t ht => hg t (List.mem_cons_of_mem _ ht))
    refine ⟨M, hM, ?_, ?_⟩
    · rcases List.mem_cons.mp hMmem with heq | hmem
      · rcases max_choice M0 v with hc | hc
        · rw [heq, hc]
          exact List.mem_cons_self _ _
        · rw [heq, hc]
          exact List.mem_cons_of_mem _ (by simp [hv])
      · exact List.mem_cons_of_mem _ (by
          simp only [List.map_cons, List.mem_cons]
          right
          simpa using hmem)
    · intro x hx
      have hmax : max M0 v ≤ M := hMub _ (List.mem_cons_self _ _)
      rcases List.mem_cons.mp hx with rfl | hx2
      · exact le_trans (le_max_left _ _) hmax
      · simp only [List.map_cons, List.mem_cons] at hx2
        rcases hx2 with rfl | hx3
        · exact le_trans (by simp [hv]) hmax
        · exact hMub x (List.mem_cons_of_mem _ (by simpa using hx3))

/-- Every `cardMap` entry is the fold of its own key group, which is
non-empty and starts at the entry's representative session. -/
theorem cardMap_mem_spec (ds : List Session) (kv : String × MergeEntry)
    (hkv : kv ∈ cardMap ds) :
    ∃ h rest, ds.filter (fun s => cardKey s = kv.1) = h :: rest ∧
      kv.2 = mergeFold (initEntry h) rest := by
  have hnd : ((cardMap ds).map Prod.fst).Nodup := by
    unfold cardMap assocGroup
    exact keys_foldl_nodup _ _ _ ds [] (by simp)
  have hlook := alookup_of_mem _ kv hnd hkv
  rw [cardMap_lookup] at hlook
  cases hfil : ds.filter (fun s => cardKey s = kv.1) with
  | nil =>
    rw [hfil] at hlook
    simp [groupEntry] at hlook
  | cons h rest =>
    rw [hfil, groupEntry_cons] at hlook
    exact ⟨h, rest, rfl, (Option.some_inj.mp hlook).symm⟩

end useSessionsByDate

namespace useSessionsByDate

/-- Claim C3 (amended): within the date bucket of any session `s₀`, the
aggregation yields exactly one view record for the concatenated card key of
`s₀`; provided distinct `(cardId, boardId)` pairs in the list never collide
on the concatenated key (the qualification the counterexample forces) and
all sessions carry positive end times, that record's `duration` is the sum
of the group's durations, `startTime` its minimum start, `endTime` its
maximum end, `sessionCount` the group size, and `mergedIds` the group's ids
when more than one session merged; a singleton group keeps its session with
`sessionCount` 1 and no `mergedIds`. -/
theorem C3_date_card_merge (l : List Session) (s₀ : Session) (hs₀ : s₀ ∈ l)
    (hinj : ∀ s1 ∈ l, ∀ s2 ∈ l, cardKey s1 = cardKey s2 →
      s1.cardId = s2.cardId ∧ s1.boardId = s2.boardId)
    (hend : ∀ s ∈ l, ∃ v, s.endTime = some v ∧ 0 < v) :
    ∃ dg g rec,
      dg = l.filter
        (fun s => dateKey s.startTime = dateKey s₀.startTime) ∧
      g = dg.filter (fun s => cardKey s = cardKey s₀) ∧
      alookup (byDate l) (dateKey s₀.startTime) = some dg ∧
      (mergedRecords dg).filter
        (fun r => r.cardId = s₀.cardId ∧ r.boardId = s₀.boardId) = [rec] ∧
      rec.duration = (g.map (fun s => s.duration)).sum ∧
      rec.sessionCount = some g.length ∧
      rec.startTime ∈ g.map (fun s => s.startTime) ∧
      (∀ x ∈ g.map (fun s => s.startTime), rec.startTime ≤ x) ∧
      (∃ M, rec.endTime = some M ∧
        M ∈ g.map (fun s => s.endTime.getD 0) ∧
        ∀ x ∈ g.map (fun s => s.endTime.getD 0), x ≤ M) ∧
      (1 < g.length → rec.mergedIds = some (g.map (fun s => s.id))) ∧
      (∀ s, g = [s] →
        rec = { s with sessionCount := some 1, mergedIds := none }) := by
  have hs₀dg : s₀ ∈ l.filter
      (fun s => dateKey s.startTime = dateKey s₀.startTime) :=
    List.mem_filter.mpr ⟨hs₀, by simp⟩
  have hdgne : l.filter
      (fun s => dateKey s.startTime = dateKey s₀.startTime) ≠ [] :=
    List.ne_nil_of_mem hs₀dg
  cases hgs : (l.filter
      (fun s => dateKey s.startTime = dateKey s₀.startTime)).filter
      (fun s => cardKey s = cardKey s₀) with
  | nil =>
    exfalso
    have hmem : s₀ ∈ (l.filter
        (fun s => dateKey s.startTime = dateKey s₀.startTime)).filter
        (fun s => cardKey s = cardKey s₀) :=
      List.mem_filter.mpr ⟨hs₀dg, by simp⟩
    rw [hgs] at hmem
    cases hmem
  | cons h0 rest =>
    have hh0g : h0 ∈ (l.filter
        (fun s => dateKey s.startTime = dateKey s₀.startTime)).filter
        (fun s => cardKey s = cardKey s₀) := by
      rw [hgs]; exact List.mem_cons_self _ _
    have hh0dg := (List.mem_filter.mp hh0g).1
    have hh0key : cardKey h0 = cardKey s₀ := by
      simpa using (List.mem_filter.mp hh0g).2
    have hh0l : h0 ∈ l := (List.mem_filter.mp hh0dg).1
    obtain ⟨M0, hM0, hM0pos⟩ := hend h0 hh0l
    have hlook : alookup (cardMap (l.filter
        (fun s => dateKey s.startTime = dateKey s₀.startTime)))
        (cardKey s₀) = some (mergeFold (initEntry h0) rest) := by
      rw [cardMap_lookup, hgs, groupEntry_cons]
    have hnd : ((cardMap (l.filter
        (fun s => dateKey s.startTime = dateKey s₀.startTime))).map
        Prod.fst).Nodup := by
      unfold cardMap assocGroup
      exact keys_foldl_nodup _ _ _ _ [] (by simp)
    have hfilkv : (cardMap (l.filter
        (fun s => dateKey s.startTime = dateKey s₀.startTime))).filter
        (fun kv => kv.1 = cardKey s₀) =
        [(cardKey s₀, mergeFold (initEntry h0) rest)] :=
      (filter_fst_of_lookup _ _ hnd).1 _ hlook
    have hrecfilter : (mergedRecords (l.filter
        (fun s => dateKey s.startTime = dateKey s₀.startTime))).filter
        (fun r => r.cardId = s₀.cardId ∧ r.boardId = s₀.boardId) =
        [{ (mergeFold (initEntry h0) rest).session with
            sessionCount := some (mergeFold (initEntry h0) rest).count
            mergedIds :=
              if (mergeFold (initEntry h0) rest).ids.length > 1 then
                some (mergeFold (initEntry h0) rest).ids
              else none }] := by
      unfold mergedRecords
      rw [List.filter_map]
      have hcongr : List.filter
          ((fun r => decide (r.cardId = s₀.cardId ∧ r.boardId = s₀.boardId)) ∘
            (fun kv : String × MergeEntry =>
              { kv.2.session with
                sessionCount := some kv.2.count
                mergedIds :=
                  if kv.2.ids.length > 1 then some kv.2.ids else none }))
          (cardMap (l.filter
            (fun s => dateKey s.startTime = dateKey s₀.startTime))) =
          List.filter (fun kv => kv.1 = cardKey s₀)
          (cardMap (l.filter
            (fun s => dateKey s.startTime = dateKey s₀.startTime))) := by
        apply List.filter_congr
        intro kv hkv
        obtain ⟨h', rest', hfil', hekv⟩ := cardMap_mem_spec _ kv hkv
        have hh'g : h' ∈ (l.filter
            (fun s => dateKey s.startTime = dateKey s₀.startTime)).filter
            (fun s => cardKey s = kv.1) := by
          rw [hfil']; exact List.mem_cons_self _ _
        have hh'mem := List.mem_filter.mp hh'g
        have hh'key : cardKey h' = kv.1 := by simpa using hh'mem.2
        have hh'l : h' ∈ l := (List.mem_filter.mp hh'mem.1).1
        have hcard : kv.2.session.cardId = h'.cardId := by
          rw [hekv]; exact (mergeFold_identity rest' (initEntry h')).1
        have hboard : kv.2.session.boardId = h'.boardId := by
          rw [hekv]; exact (mergeFold_identity rest' (initEntry h')).2.1
        simp only [Function.comp]
        rw [decide_eq_decide]
        constructor
        · rintro ⟨hc, hb⟩
          rw [← hh'key]
          have hc2 : h'.cardId = s₀.cardId := by rw [← hcard]; exact hc
          have hb2 : h'.boardId = s₀.boardId := by rw [← hboard]; exact hb
          unfold cardKey
          rw [hc2, hb2]
        · intro hk1
          have hkey2 : cardKey h' = cardKey s₀ := by rw [hh'key, hk1]
          have hp := hinj h' hh'l s₀ hs₀ hkey2
          exact ⟨by rw [show ({ kv.2.session with
              sessionCount := some kv.2.count
              mergedIds :=
                if kv.2.ids.length > 1 then some kv.2.ids
                else none } : Session).cardId = kv.2.session.cardId
              from rfl, hcard, hp.1],
            by rw [show ({ kv.2.session with
              sessionCount := some kv.2.count
              mergedIds :=
                if kv.2.ids.length > 1 then some kv.2.ids
                else none } : Session).boardId = kv.2.session.boardId
              from rfl, hboard, hp.2]⟩
      rw [hcongr, hfilkv]
      rfl
    refine ⟨l.filter (fun s => dateKey s.startTime = dateKey s₀.startTime),
      (l.filter (fun s => dateKey s.startTime = dateKey s₀.startTime)).filter
        (fun s => cardKey s = cardKey s₀),
      { (mergeFold (initEntry h0) rest).session with
        sessionCount := some (mergeFold (initEntry h0) rest).count
        mergedIds :=
          if (mergeFold (initEntry h0) rest).ids.length > 1 then
            some (mergeFold (initEntry h0) rest).ids
          else none },
      rfl, rfl, ?_, hrecfilter, ?_, ?_, ?_, ?_, ?_, ?_, ?_⟩
    · rw [byDate_lookup, if_neg hdgne]
    · show (mergeFold (initEntry h0) rest).session.duration = _
      rw [mergeFold_duration, hgs]
      simp [initEntry]
    · show some (mergeFold (initEntry h0) rest).count = _
      rw [mergeFold_count, hgs]
      simp [initEntry, Nat.add_comm]
    · show (mergeFold (initEntry h0) rest).session.startTime ∈ _
      rw [hgs, List.map_cons]
      exact (mergeFold_startTime rest (initEntry h0)).1
    · intro x hx
      rw [hgs, List.map_cons] at hx
      exact (mergeFold_startTime rest (initEntry h0)).2 x hx
    · obtain ⟨M, hM, hMmem, hMub⟩ := mergeFold_endTime rest (initEntry h0)
        M0 hM0 (fun t ht => hend t (by
          have : t ∈ (l.filter
              (fun s => dateKey s.startTime = dateKey s₀.startTime)).filter
              (fun s => cardKey s = cardKey s₀) := by
            rw [hgs]; exact List.mem_cons_of_mem _ ht
          exact (List.mem_filter.mp ((List.mem_filter.mp this).1)).1))
      refine ⟨M, hM, ?_, ?_⟩
      · rw [hgs, List.map_cons]
        have : h0.endTime.getD 0 = M0 := by rw [hM0]; rfl
        rw [this]
        exact hMmem
      · intro x hx
        rw [hgs, List.map_cons] at hx
        have hgd : h0.endTime.getD 0 = M0 := by rw [hM0]; rfl
        rw [hgd] at hx
        exact hMub x hx
    · intro hlen
      rw [hgs] at hlen
      have hids : (mergeFold (initEntry h0) rest).ids =
          h0.id :: rest.map (fun s => s.id) := by
        rw [mergeFold_ids]; rfl
      have hlen2 : (mergeFold (initEntry h0) rest).ids.length > 1 := by
        rw [hids]
        simp only [List.length_cons, List.length_map]
        simp at hlen
        omega
      show (if (mergeFold (initEntry h0) rest).ids.length > 1 then
          some (mergeFold (initEntry h0) rest).ids else none) = _
      rw [if_pos hlen2, hids, hgs, List.map_cons]
    · intro s hsg
      rw [hgs] at hsg
      obtain ⟨rfl, hrest⟩ : h0 = s ∧ rest = [] := by
        constructor
        · exact (List.cons.injEq _ _ _ _ ▸ hsg).1
        · exact (List.cons.injEq _ _ _ _ ▸ hsg).2
      subst hrest
      rfl

end useSessionsByDate

/-- Claim C3, as stated, is false at a concrete input: the code groups by
the concatenated string `cardId + "-" + boardId`, so the distinct pairs
`("a", "b-c")` and `("a-b", "c")` collide; the `("a", "b-c")` group has
exactly one session, yet no record with `sessionCount` 1 exists — the two
different cards are merged into a single record with `sessionCount` 2. -/
theorem C3_counterexample :
    (colList.filter (fun s => s.cardId = "a" ∧ s.boardId = "b-c")).length
      = 1 ∧
    (useSessionsByDate.grouped colList).map
      (fun kv => kv.2.map (fun r => r.sessionCount)) = [[some 2]] ∧
    (∀ kv ∈ useSessionsByDate.grouped colList, ∀ r ∈ kv.2,
      ¬r.sessionCount = some 1) := by
  decide

/-- Witness for `useSessionsByDate.C3_date_card_merge`: three same-card
same-date sessions of 100, 200 and 300 seconds yield exactly one record,
with duration 600, `sessionCount` 3 and all three ids merged. -/
theorem C3_date_card_merge_witness :
    ((useSessionsByDate.mergedRecords mergeTriple).filter
        (fun r => r.cardId = tripleA.cardId ∧ r.boardId = tripleA.boardId)).map
      (fun r => (r.duration, r.sessionCount, r.mergedIds)) =
      [(600, some 3, some ["t1", "t2", "t3"])] := by
  obtain ⟨dg, g, rec, hdg, hgg, hlook, hfil, hdur, hcount, hst1, hst2,
    hendx, hmerged, hsingle⟩ :=
    useSessionsByDate.C3_date_card_merge mergeTriple tripleA (by decide)
      (by decide)
      (by
        intro s hs
        simp only [mergeTriple, List.mem_cons, List.not_mem_nil,
          or_false] at hs
        rcases hs with rfl | rfl | rfl
        · exact ⟨101000, rfl, by decide⟩
        · exact ⟨401000, rfl, by decide⟩
        · exact ⟨801000, rfl, by decide⟩)
  have hflt : mergeTriple.filter
      (fun s => useSessionsByDate.dateKey s.startTime =
        useSessionsByDate.dateKey tripleA.startTime) = mergeTriple := by
    decide
  subst hdg
  rw [hflt] at hfil hgg
  have hgval : g = mergeTriple := by rw [hgg]; decide
  subst hgval
  rw [hfil, List.map_singleton]
  have h600 : rec.duration = 600 := by
    rw [hdur]; decide
  have h3 : rec.sessionCount = some 3 := by
    rw [hcount]; rfl
  have hids : rec.mergedIds = some ["t1", "t2", "t3"] := by
    rw [hmerged (by decide)]; rfl
  rw [h600, h3, hids]

/-!
## Claim C4 — cascade delete
-/

/-- Claim C4 names a real code bug: `deleteSession` in `useSessionsByDate`
has an unconditional `break` at the end of its loop body, so only the first
date bucket is ever searched.  On `exList` the view's second date bucket
holds the merged record with id `"s2"` and `mergedIds = ["s2", "s3"]`, its
own comment says "delete all merged sessions", yet the call deletes only
`["s2"]`, leaving `"s3"` orphaned.  (The cascade does work when the record
sits in the first bucket.) -/
theorem C4_cascade_delete_bug :
    (useSessionsByDate.grouped exList).map
        (fun kv => kv.2.map (fun r => (r.id, r.mergedIds))) =
      [[("s1", none)], [("s2", some ["s2", "s3"])]] ∧
    useSessionsByDate.deleteSessionIds (useSessionsByDate.grouped exList)
        "s2" = ["s2"] ∧
    "s3" ∉ useSessionsByDate.deleteSessionIds
        (useSessionsByDate.grouped exList) "s2" ∧
    useSessionsByDate.deleteSessionIds (useSessionsByDate.grouped exList)
        "s1" = ["s1"] := by
  decide
